import Mathlib

/-!
Verification of the MongoDB aggregation-pipeline repair/validation heuristic
(`fix_pipeline` in `src/client/unified_agent.py`, `fix_pipeline` and
`validate_pipeline` in `src/archived_sample/client/mongo_agent.py`).

The embedding models JSON-compatible Python values, the accumulator regex
`^(\$(?:sum|avg|min|max|first|last|push|addToSet))[:\s]*["']?(\$?[a-zA-Z0-9_.]+)?["']?$`
(the archived copy makes the operand group mandatory), Python's `str.strip`,
`str.split(":", 1)`, `str.strip('"\'')`, and the `int()`/`float()` coercion
attempts.  Exceptions (`AttributeError` from calling `.items()` on a
non-mapping `$group` value) are modelled by `Option`/`Except`.
-/

namespace DbMcp

mutual

/-- JSON-compatible Python values.  Python `dict`s are insertion-ordered, so
objects (`JObject`) are ordered key-value sequences.  A Python `float`
produced by `float(lit)` is represented by the literal string `lit` it was
parsed from; no claim in this development depends on float arithmetic or
rounding, and the only producer of floats is the numeric-coercion step of the
repairer. -/
inductive JValue where
  | null
  | bool (b : Bool)
  | int (n : Int)
  | float (lit : String)
  | str (s : String)
  | arr (items : JArray)
  | obj (fields : JObject)
  deriving DecidableEq

inductive JArray where
  | nil
  | cons (v : JValue) (rest : JArray)
  deriving DecidableEq

inductive JObject where
  | nil
  | cons (key : String) (value : JValue) (rest : JObject)
  deriving DecidableEq

end

/-- A pipeline stage: a Python dict with string keys. -/
abbrev Stage := List (String × JValue)

/-- An aggregation pipeline: ordered list of stages. -/
abbrev Pipeline := List Stage

/-- Python whitespace as stripped by `str.strip()` and matched by `\s`
(ASCII fragment; the repairer's inputs are JSON text). -/
def isPySpace (c : Char) : Bool :=
  c = ' ' || c = '\t' || c = '\n' || c = '\x0d' || c = '\x0b' || c = '\x0c'

/-- Right strip of trailing Python whitespace. -/
def rstripL (l : List Char) : List Char := (l.reverse.dropWhile isPySpace).reverse

/-- Python `str.strip()` on a list of characters. -/
def pyStripL (l : List Char) : List Char := rstripL (l.dropWhile isPySpace)

/-- Python `s.strip()`. -/
def pyStrip (s : String) : String := String.mk (pyStripL s.toList)

/-- Python `s.startswith("$")`. -/
def startsWithDollar (s : String) : Bool :=
  match s.toList with
  | c :: _ => c = '$'
  | [] => false

/-- Python `":" in s`. -/
def containsColon (s : String) : Bool := s.toList.contains ':'

/-- Python `s.strip('"\'')` on a list of characters: drop leading and trailing
single/double quote characters. -/
def stripQuotesL (l : List Char) : List Char :=
  ((l.dropWhile (fun c => c = '"' || c = '\'')).reverse.dropWhile
    (fun c => c = '"' || c = '\'')).reverse

/-- Python `s.strip('"\'')`. -/
def stripQuotes (s : String) : String := String.mk (stripQuotesL s.toList)

/-- The part of `s` before the first `:` — `s.split(":", 1)[0]`. -/
def beforeColon (s : String) : String := String.mk (s.toList.takeWhile (· ≠ ':'))

/-- The part of `s` after the first `:` — `s.split(":", 1)[1]`
(meaningful only when `containsColon s`). -/
def afterColon (s : String) : String := String.mk ((s.toList.dropWhile (· ≠ ':')).drop 1)

/-! ### Python `int()` / `float()` on strings -/

/-- Digit run with Python's underscore rule (`1_000` ok, `_1`/`1_`/`1__2` bad),
accumulating the value.  The first character must already have been a digit. -/
def pyDigitsGo (acc : Nat) : List Char → Option Nat
  | [] => some acc
  | '_' :: c :: rest =>
      if c.isDigit then pyDigitsGo (acc * 10 + (c.toNat - '0'.toNat)) rest else none
  | c :: rest =>
      if c.isDigit then pyDigitsGo (acc * 10 + (c.toNat - '0'.toNat)) rest else none

/-- A Python `digitpart`: nonempty digits with single underscores between them. -/
def pyDigits : List Char → Option Nat
  | c :: rest => if c.isDigit then pyDigitsGo (c.toNat - '0'.toNat) rest else none
  | [] => none

/-- Python `int(s)` for a string `s`: optional surrounding whitespace, optional
sign, digits with underscores.  Returns the parsed integer. -/
def pyIntParse (s : String) : Option Int :=
  match pyStripL s.toList with
  | '+' :: rest => (pyDigits rest).map Int.ofNat
  | '-' :: rest => (pyDigits rest).map (fun n => -(Int.ofNat n))
  | l => (pyDigits l).map Int.ofNat

/-- Recognise a Python `digitpart` as a predicate. -/
def isDigitPart (l : List Char) : Bool := (pyDigits l).isSome

/-- Splits `l` into the longest prefix of digits/underscores and the rest. -/
def spanDigitsU (l : List Char) : List Char × List Char :=
  (l.takeWhile (fun c => c.isDigit || c = '_'), l.dropWhile (fun c => c.isDigit || c = '_'))

/-- Mantissa of a Python float literal: `digitpart`, `digitpart . digitpart?`,
or `. digitpart` (at least one digit overall). -/
def pyFloatMantissa (l : List Char) : Option (List Char) :=
  let (intPart, rest) := spanDigitsU l
  match rest with
  | '.' :: rest' =>
      let (fracPart, rest'') := spanDigitsU rest'
      if intPart = [] && fracPart = [] then none
      else if intPart ≠ [] && ¬ isDigitPart intPart then none
      else if fracPart ≠ [] && ¬ isDigitPart fracPart then none
      else some rest''
  | _ => if isDigitPart intPart then some rest else none

/-- Exponent of a Python float literal: empty, or `(e|E) sign? digitpart`. -/
def pyFloatExp (l : List Char) : Bool :=
  match l with
  | [] => true
  | c :: rest =>
      if c = 'e' || c = 'E' then
        match rest with
        | '+' :: rest' => isDigitPart rest'
        | '-' :: rest' => isDigitPart rest'
        | _ => isDigitPart rest
      else false

/-- Case-insensitive match of `l` against the lowercase word `w`. -/
def matchWordCI : List Char → List Char → Bool
  | [], [] => true
  | c :: rest, w :: ws => (c.toLower = w) && matchWordCI rest ws
  | _, _ => false

/-- Python `float(s)` succeeds: optional whitespace and sign, then
`inf`/`infinity`/`nan` (case-insensitive) or a decimal literal with optional
exponent. -/
def pyFloatParses (s : String) : Bool :=
  let body := fun (l : List Char) =>
    matchWordCI l "inf".toList || matchWordCI l "infinity".toList ||
    matchWordCI l "nan".toList ||
    (match pyFloatMantissa l with
     | some rest => pyFloatExp rest
     | none => false)
  match pyStripL s.toList with
  | '+' :: rest => body rest
  | '-' :: rest => body rest
  | l => body l

/-- The repairer's numeric-coercion step:
`try: val = int(val) except: try: val = float(val) except: pass`. -/
def pyNumCoerce (s : String) : JValue :=
  match pyIntParse s with
  | some n => JValue.int n
  | none => if pyFloatParses s then JValue.float s else JValue.str s

/-! ### The accumulator regex

`^(\$(?:sum|avg|min|max|first|last|push|addToSet))[:\s]*["']?(\$?[a-zA-Z0-9_.]+)?["']?$`

The matcher below renders Python `re.match` semantics deterministically.
Backtracking is not needed:
* no operator word of the alternation is a prefix of another, so group 1 is
  the unique vocabulary word starting the string (or the match fails);
* the separator class `[:\s]` is disjoint from the quote and operand
  character classes, so only the maximal separator run can be consumed —
  after a shorter run the leftover separator character can be consumed by
  nothing that follows;
* when `\$?[a-zA-Z0-9_.]+` can start at a position, the position starts with
  `$` or an operand character, so the alternative where the whole optional
  group 2 is skipped (requiring `["']?$` right there) fails anyway, and only
  the maximal operand run can succeed, since the character after a shorter
  run is an operand character that `["']?$` cannot consume. -/

/-- `[:\s]` — colon or whitespace separator characters. -/
def isSepChar (c : Char) : Bool := c = ':' || isPySpace c

/-- `[a-zA-Z0-9_.]` — characters allowed in the operand (after `\$?`). -/
def isOperandChar (c : Char) : Bool := c.isAlpha || c.isDigit || c = '_' || c = '.'

/-- `["']` — the optional quote characters around the operand. -/
def isQuoteChar (c : Char) : Bool := c = '"' || c = '\''

/-- `["']?$`: the remainder must be empty or a single quote character. -/
def matchQuoteEnd : List Char → Bool
  | [] => true
  | [c] => isQuoteChar c
  | _ => false

/-- Greedy `\$?[a-zA-Z0-9_.]+`: the operand (group 2) and the rest of the
input, or `none` when no operand starts here. -/
def takeOperand : List Char → Option (List Char × List Char)
  | [] => none
  | c :: rest =>
      if c = '$' then
        if (rest.takeWhile isOperandChar).isEmpty then none
        else some ('$' :: rest.takeWhile isOperandChar, rest.dropWhile isOperandChar)
      else
        if ((c :: rest).takeWhile isOperandChar).isEmpty then none
        else some ((c :: rest).takeWhile isOperandChar, (c :: rest).dropWhile isOperandChar)

/-- `(\$?[a-zA-Z0-9_.]+)` + `["']?$` when the operand group is mandatory
(`req = true`, the `mongo_agent.py` pattern), or `(\$?[a-zA-Z0-9_.]+)?` +
`["']?$` when optional (`req = false`, the `unified_agent.py` pattern).
Returns `some (some opnd)` on a match with operand, `some none` on a match
with group 2 absent. -/
def matchOperandTail (req : Bool) (u : List Char) : Option (Option (List Char)) :=
  match takeOperand u with
  | some (opnd, rest) => if matchQuoteEnd rest then some (some opnd) else none
  | none =>
      if req then none
      else if matchQuoteEnd u then some none else none

/-- `["']?` + operand tail, with the regex's preference for consuming the
leading quote first and backtracking to the unconsumed-quote alternative. -/
def matchAfterSeps (req : Bool) : List Char → Option (Option (List Char))
  | [] => matchOperandTail req []
  | c :: t' =>
      if isQuoteChar c then
        match matchOperandTail req t' with
        | some r => some r
        | none => matchOperandTail req (c :: t')
      else matchOperandTail req (c :: t')

/-- Strip the word `w` off the front of `l`. -/
def dropWordFront : List Char → List Char → Option (List Char)
  | [], l => some l
  | c :: w, d :: l => if d = c then dropWordFront w l else none
  | _ :: _, [] => none

/-- The accumulator-operator vocabulary, in the alternation's order. -/
def accOperators : List String :=
  ["sum", "avg", "min", "max", "first", "last", "push", "addToSet"]

/-- Find the vocabulary word that prefixes `l` (after the `$`). -/
def findOp : List String → List Char → Option (String × List Char)
  | [], _ => none
  | w :: ws, l =>
      match dropWordFront w.toList l with
      | some rest => some (w, rest)
      | none => findOp ws l

/-- Assembly of the match result: group 1 is `$` + the operator word, group 2
the operand characters when present. -/
def accAssemble (w : String) (m : Option (Option (List Char))) :
    Option (String × Option String) :=
  match m with
  | some v? => some (String.mk ('$' :: w.toList), v?.map String.mk)
  | none => none

def accMatchCore (req : Bool) (c : Char) (rest : List Char) :
    Option (String × Option String) :=
  if c = '$' then
    match findOp accOperators rest with
    | some (w, rest') => accAssemble w (matchAfterSeps req (rest'.dropWhile isSepChar))
    | none => none
  else none

/-- Python `re.match` of the accumulator pattern against `s` (split into the
head test and `accMatchCore`). -/
def accMatch (req : Bool) (s : String) : Option (String × Option String) :=
  match s.toList with
  | c :: rest => accMatchCore req c rest
  | [] => none

/-! ### The repairer and the validator -/

/-- The per-field repair of a `$group` entry: the body of the loop over
`group.items()` for `k ≠ "_id"`, shared by both copies of `fix_pipeline`
(`req = false`: `unified_agent.py`; `req = true`: `mongo_agent.py`).
For `req = true` the archived code reads `match.group(2)` directly; since the
mandatory-operand pattern always yields group 2, the `"$value"` default is
unreachable there and sharing the defaulting expression is observationally
exact. -/
def fixGroupValue (req : Bool) (v : JValue) : JValue :=
  match v with
  | JValue.str s =>
      if startsWithDollar (pyStrip s) then
        match accMatch req (pyStrip s) with
        | some (_op, v?) =>
            JValue.obj (JObject.cons _op (pyNumCoerce (v?.getD "$value")) JObject.nil)
        | none =>
            if containsColon s then
              JValue.obj (JObject.cons (pyStrip (beforeColon s))
                (JValue.str (stripQuotes (pyStrip (afterColon s)))) JObject.nil)
            else v
      else v
  | _ => v

/-- The loop over `group.items()` building `new_group`. -/
def fixGroup (req : Bool) : JObject → JObject
  | JObject.nil => JObject.nil
  | JObject.cons k v rest =>
      JObject.cons k (if k = "_id" then v else fixGroupValue req v) (fixGroup req rest)

/-- Python `stage[k]` lookup (dict keys are unique; first match). -/
def dictGet (k : String) : Stage → Option JValue
  | [] => none
  | (k', v) :: rest => if k' = k then some v else dictGet k rest

/-- Python `stage[k] = v`: replace the value at `k` keeping its position, or
append when absent. -/
def dictSet (k : String) (v : JValue) : Stage → Stage
  | [] => [(k, v)]
  | (k', v') :: rest => if k' = k then (k, v) :: rest else (k', v') :: dictSet k v rest

/-- One iteration of the `for stage in pipeline` loop:
`new_stage = stage.copy()`, and when `"$group" in new_stage`, replace its
group spec by the repaired one.  Calling `.items()` on a non-mapping `$group`
value raises `AttributeError`, modelled by `none`. -/
def fixStage (req : Bool) (stage : Stage) : Option Stage :=
  match dictGet "$group" stage with
  | none => some stage
  | some (JValue.obj g) => some (dictSet "$group" (JValue.obj (fixGroup req g)) stage)
  | some _ => none

/-- `fix_pipeline`, parametrised by which regex the copy uses.  The Python
loop raises at the first bad stage; with `Option` the result is `none`
whenever any stage is bad. -/
def fixPipeline (req : Bool) : Pipeline → Option Pipeline
  | [] => some []
  | stage :: rest =>
      match fixStage req stage with
      | none => none
      | some s =>
          match fixPipeline req rest with
          | none => none
          | some rest' => some (s :: rest')

/-- `fix_pipeline` from `src/client/unified_agent.py` (operand group
optional in the regex). -/
def fix_pipeline_unified (p : Pipeline) : Option Pipeline := fixPipeline false p

/-- `fix_pipeline` from `src/archived_sample/client/mongo_agent.py` (operand
group mandatory in the regex). -/
def fix_pipeline_archived (p : Pipeline) : Option Pipeline := fixPipeline true p

/-- The two failure reasons of `validate_pipeline`:
`notAccumulatorObject` is the `ValueError` "field '{key}' must use an
accumulator operator like $sum, $avg, $min, $max. Got: ..." raised when the
value is not a dict; `missingAccumulatorOperator` the `ValueError`
"field '{key}' must use an accumulator operator. Got: ..." raised when the
dict has no key starting with `$`. -/
inductive VReason where
  | notAccumulatorObject
  | missingAccumulatorOperator
  deriving DecidableEq

/-- Errors raised by `validate_pipeline`: the intended `ValueError` (carrying
the stage index and field name via the message), or the `AttributeError`
raised by iterating `stage["$group"].items()` when the `$group` value is not
a mapping. -/
inductive VError where
  | validationError (stageIndex : Nat) (field : String) (reason : VReason)
  | attributeError
  deriving DecidableEq

/-- `any(k.startswith("$") for k in value.keys())` — the `operators` check. -/
def JObject.anyDollarKey : JObject → Bool
  | JObject.nil => false
  | JObject.cons k _ rest => startsWithDollar k || JObject.anyDollarKey rest

/-- The loop over `group_stage.items()` in `validate_pipeline`, raising at
the first offending field. -/
def validateGroup (i : Nat) : JObject → Except VError Unit
  | JObject.nil => Except.ok ()
  | JObject.cons k v rest =>
      if k = "_id" then validateGroup i rest
      else
        match v with
        | JValue.obj fields =>
            if fields.anyDollarKey then validateGroup i rest
            else Except.error (VError.validationError i k VReason.missingAccumulatorOperator)
        | _ => Except.error (VError.validationError i k VReason.notAccumulatorObject)

/-- One iteration of `for i, stage in enumerate(pipeline)`. -/
def validateStage (i : Nat) (stage : Stage) : Except VError Unit :=
  match dictGet "$group" stage with
  | none => Except.ok ()
  | some (JValue.obj g) => validateGroup i g
  | some _ => Except.error VError.attributeError

/-- The enumeration loop of `validate_pipeline`, starting at index `i`. -/
def validateFrom (i : Nat) : Pipeline → Except VError Unit
  | [] => Except.ok ()
  | stage :: rest =>
      match validateStage i stage with
      | Except.ok _ => validateFrom (i + 1) rest
      | Except.error e => Except.error e

/-- The `validate_pipeline` of `src/archived_sample/client/mongo_agent.py`. -/
def validate_pipeline (p : Pipeline) : Except VError Unit := validateFrom 0 p

/-! ### Predicates used to state the claims -/

/-- Sigil check on a character list (`startsWithDollar` after `String.mk`). -/
def startsWithDollarL : List Char → Bool
  | c :: _ => c = '$'
  | [] => false

/-- An accumulator object in the sense of the validator: a mapping with at
least one key beginning with `$`. -/
def isAccumulatorObject (v : JValue) : Bool :=
  match v with
  | JValue.obj fields => fields.anyDollarKey
  | _ => false

/-- The reason for which the validator rejects a non-`_id` group field value,
or `none` when the value passes both checks. -/
def badValueReason (v : JValue) : Option VReason :=
  match v with
  | JValue.obj fields =>
      if fields.anyDollarKey then none else some VReason.missingAccumulatorOperator
  | _ => some VReason.notAccumulatorObject

/-- Every non-`_id` field of the group spec is an accumulator object. -/
def groupWellFormed : JObject → Bool
  | JObject.nil => true
  | JObject.cons k v rest =>
      (if k = "_id" then true else isAccumulatorObject v) && groupWellFormed rest

/-- The `$group` value of the stage, when present, is a mapping whose
non-`_id` fields are accumulator objects. -/
def stageWellFormed (stage : Stage) : Bool :=
  match dictGet "$group" stage with
  | none => true
  | some (JValue.obj g) => groupWellFormed g
  | some _ => false

/-- A well-formed pipeline: every `$group` value is a mapping whose non-`_id`
fields are accumulator objects (the GroupSpec invariant). -/
def wellFormed (p : Pipeline) : Bool := p.all stageWellFormed

/-- The `$group` value of the stage, when present, is a mapping. -/
def stageGroupIsObj (stage : Stage) : Bool :=
  match dictGet "$group" stage with
  | none => true
  | some (JValue.obj _) => true
  | some _ => false

/-- Every `$group` value in the pipeline is a mapping (so iterating
`.items()` cannot raise). -/
def groupsAreObjs (p : Pipeline) : Bool := p.all stageGroupIsObj

/-- Some non-`_id` field of the group spec fails one of validate's checks. -/
def hasBadFieldGroup : JObject → Bool
  | JObject.nil => false
  | JObject.cons k v rest =>
      (if k = "_id" then false else (badValueReason v).isSome) || hasBadFieldGroup rest

/-- The stage has a `$group` field the validator rejects. -/
def stageHasBadField (stage : Stage) : Bool :=
  match dictGet "$group" stage with
  | some (JValue.obj g) => hasBadFieldGroup g
  | _ => false

/-- Some `$group` stage of the pipeline has a field the validator rejects. -/
def hasBadField (p : Pipeline) : Bool := p.any stageHasBadField

/-- The group spec has the (non-`_id`) field `f` and the validator would
reject it with reason `r`. -/
def groupBadAt : JObject → String → VReason → Bool
  | JObject.nil, _, _ => false
  | JObject.cons k v rest, f, r =>
      (if k = "_id" then false
       else decide (k = f) && decide (badValueReason v = some r)) || groupBadAt rest f r

/-- Stage `i` of the pipeline has a `$group` field `f` that the validator
rejects with reason `r`. -/
def badAt (p : Pipeline) (i : Nat) (f : String) (r : VReason) : Bool :=
  match p.get? i with
  | some stage =>
      match dictGet "$group" stage with
      | some (JValue.obj g) => groupBadAt g f r
      | _ => false
  | none => false

/-- A string value that matches the optional-operand regex of
`unified_agent.py` with group 2 absent (a bare operator such as `"$sum"`):
exactly the values on which the two copies of `fix_pipeline` disagree. -/
def valueBareOperand (v : JValue) : Bool :=
  match v with
  | JValue.str s =>
      startsWithDollar (pyStrip s) &&
        (match accMatch false (pyStrip s) with
         | some (_, none) => true
         | _ => false)
  | _ => false

/-- Some non-`_id` field of the group spec is a bare-operator string. -/
def groupHasBareOperand : JObject → Bool
  | JObject.nil => false
  | JObject.cons k v rest =>
      (if k = "_id" then false else valueBareOperand v) || groupHasBareOperand rest

/-- The stage has a `$group` field holding a bare-operator string. -/
def stageHasBareOperand (stage : Stage) : Bool :=
  match dictGet "$group" stage with
  | some (JValue.obj g) => groupHasBareOperand g
  | _ => false

/-- Some `$group` stage of the pipeline has a bare-operator string field. -/
def hasBareOperand (p : Pipeline) : Bool := p.any stageHasBareOperand

/-- The shape of every replacement the repairer writes: a single-key mapping
whose key begins with `$`. -/
def isSingleDollarKeyObj (v : JValue) : Bool :=
  match v with
  | JValue.obj (JObject.cons k _ JObject.nil) => startsWithDollar k
  | _ => false

/-- Keys of a group spec, in order. -/
def JObject.keys : JObject → List String
  | JObject.nil => []
  | JObject.cons k _ rest => k :: JObject.keys rest

/-- Lookup of a key in a group spec (first occurrence). -/
def JObject.lookup (k : String) : JObject → Option JValue
  | JObject.nil => none
  | JObject.cons k' v rest => if k' = k then some v else JObject.lookup k rest

/-! ### Dictionary lemmas -/

theorem dictGet_dictSet_self (k : String) (v : JValue) (s : Stage) :
    dictGet k (dictSet k v s) = some v := by
  induction s with
  | nil => simp [dictGet, dictSet]
  | cons hd tl ih =>
      obtain ⟨k', v'⟩ := hd
      by_cases h : k' = k <;> simp [dictGet, dictSet, h, ih]

theorem dictGet_dictSet_ne (k k' : String) (v : JValue) (s : Stage) (h : k' ≠ k) :
    dictGet k' (dictSet k v s) = dictGet k' s := by
  induction s with
  | nil => simp [dictGet, dictSet, Ne.symm h]
  | cons hd tl ih =>
      obtain ⟨k'', v''⟩ := hd
      by_cases h2 : k'' = k
      · subst h2
        have hk : ¬ (k'' = k') := fun hc => h hc.symm
        simp [dictGet, dictSet, hk]
      · have hs : dictSet k v ((k'', v'') :: tl) = (k'', v'') :: dictSet k v tl := by
          simp [dictSet, h2]
        rw [hs]
        by_cases h3 : k'' = k' <;> simp [dictGet, h3, ih]

theorem dictSet_dictSet_self (k : String) (v : JValue) (s : Stage) :
    dictSet k v (dictSet k v s) = dictSet k v s := by
  induction s with
  | nil => simp [dictSet]
  | cons hd tl ih =>
      obtain ⟨k', v'⟩ := hd
      by_cases h : k' = k <;> simp [dictSet, h, ih]

theorem dictSet_get_self (k : String) (v : JValue) (s : Stage)
    (h : dictGet k s = some v) : dictSet k v s = s := by
  induction s with
  | nil => simp [dictGet] at h
  | cons hd tl ih =>
      obtain ⟨k', v'⟩ := hd
      by_cases h2 : k' = k
      · subst h2
        simp [dictGet] at h
        simp [dictSet, h]
      · simp [dictGet, h2] at h
        simp [dictSet, h2, ih h]

/-! ### Per-value behaviour of the repairer -/

theorem fixGroupValue_obj (req : Bool) (g : JObject) :
    fixGroupValue req (JValue.obj g) = JValue.obj g := rfl

theorem fixGroupValue_idem (req : Bool) (v : JValue) :
    fixGroupValue req (fixGroupValue req v) = fixGroupValue req v := by
  cases v with
  | str s =>
      by_cases h1 : startsWithDollar (pyStrip s) = true
      · cases hm : accMatch req (pyStrip s) with
        | some pr =>
            obtain ⟨op, w⟩ := pr
            have hv : fixGroupValue req (JValue.str s)
                = JValue.obj (JObject.cons op (pyNumCoerce (w.getD "$value")) JObject.nil) := by
              simp [fixGroupValue, h1, hm]
            rw [hv]
            rfl
        | none =>
            by_cases h2 : containsColon s = true
            · have hv : fixGroupValue req (JValue.str s)
                  = JValue.obj (JObject.cons (pyStrip (beforeColon s))
                      (JValue.str (stripQuotes (pyStrip (afterColon s)))) JObject.nil) := by
                simp [fixGroupValue, h1, hm, h2]
              rw [hv]
              rfl
            · have hv : fixGroupValue req (JValue.str s) = JValue.str s := by
                simp [fixGroupValue, h1, hm, h2]
              rw [hv, hv]
      · have hv : fixGroupValue req (JValue.str s) = JValue.str s := by
          simp [fixGroupValue, h1]
        rw [hv, hv]
  | null => rfl
  | bool b => rfl
  | int n => rfl
  | float lit => rfl
  | arr a => rfl
  | obj o => rfl

theorem fixGroupValue_acc (req : Bool) (v : JValue)
    (h : isAccumulatorObject v = true) : fixGroupValue req v = v := by
  cases v with
  | obj o => rfl
  | null => simp [isAccumulatorObject] at h
  | bool b => simp [isAccumulatorObject] at h
  | int n => simp [isAccumulatorObject] at h
  | float lit => simp [isAccumulatorObject] at h
  | str s => simp [isAccumulatorObject] at h
  | arr a => simp [isAccumulatorObject] at h

/-! ### Group-level lemmas -/

theorem fixGroup_idem (req : Bool) : (g : JObject) →
    fixGroup req (fixGroup req g) = fixGroup req g
  | JObject.nil => rfl
  | JObject.cons k v rest => by
      by_cases h : k = "_id" <;>
        simp [fixGroup, h, fixGroup_idem req rest, fixGroupValue_idem]

theorem fixGroup_wf (req : Bool) : (g : JObject) → groupWellFormed g = true →
    fixGroup req g = g
  | JObject.nil, _ => rfl
  | JObject.cons k v rest, h => by
      simp [groupWellFormed] at h
      by_cases h2 : k = "_id"
      · simp [fixGroup, h2, fixGroup_wf req rest h.2]
      · simp [h2] at h
        simp [fixGroup, h2, fixGroup_wf req rest h.2, fixGroupValue_acc req v h.1]

theorem validateGroup_wf (i : Nat) : (g : JObject) → groupWellFormed g = true →
    validateGroup i g = Except.ok ()
  | JObject.nil, _ => rfl
  | JObject.cons k v rest, h => by
      simp [groupWellFormed] at h
      by_cases h2 : k = "_id"
      · simp [validateGroup, h2, validateGroup_wf i rest h.2]
      · simp [h2] at h
        obtain ⟨h1, hrest⟩ := h
        cases v with
        | obj fields =>
            simp [isAccumulatorObject] at h1
            simp [validateGroup, h2, h1, validateGroup_wf i rest hrest]
        | null => simp [isAccumulatorObject] at h1
        | bool b => simp [isAccumulatorObject] at h1
        | int n => simp [isAccumulatorObject] at h1
        | float lit => simp [isAccumulatorObject] at h1
        | str s2 => simp [isAccumulatorObject] at h1
        | arr a => simp [isAccumulatorObject] at h1

/-! ### Stage- and pipeline-level lemmas -/

theorem fixStage_idem (req : Bool) (s s' : Stage) (h : fixStage req s = some s') :
    fixStage req s' = some s' := by
  unfold fixStage at h
  cases hg : dictGet "$group" s with
  | none =>
      rw [hg] at h
      cases h
      simp [fixStage, hg]
  | some gv =>
      rw [hg] at h
      cases gv with
      | obj g =>
          cases h
          simp [fixStage, dictGet_dictSet_self, fixGroup_idem, dictSet_dictSet_self]
      | null => cases h
      | bool b => cases h
      | int n => cases h
      | float lit => cases h
      | str s2 => cases h
      | arr a => cases h

theorem fixStage_wf (req : Bool) (s : Stage) (h : stageWellFormed s = true) :
    fixStage req s = some s := by
  unfold stageWellFormed at h
  cases hg : dictGet "$group" s with
  | none => simp [fixStage, hg]
  | some gv =>
      rw [hg] at h
      cases gv with
      | obj g => simp [fixStage, hg, fixGroup_wf req g h, dictSet_get_self _ _ _ hg]
      | null => simp at h
      | bool b => simp at h
      | int n => simp at h
      | float lit => simp at h
      | str s2 => simp at h
      | arr a => simp at h

theorem fixPipeline_wf (req : Bool) (p : Pipeline) (h : wellFormed p = true) :
    fixPipeline req p = some p := by
  induction p with
  | nil => rfl
  | cons stage rest ih =>
      rw [wellFormed, List.all_cons, Bool.and_eq_true] at h
      obtain ⟨h1, h2⟩ := h
      simp only [fixPipeline, fixStage_wf req stage h1, ih h2]

theorem validateFrom_wf (p : Pipeline) : ∀ (i : Nat), wellFormed p = true →
    validateFrom i p = Except.ok () := by
  induction p with
  | nil => intro i _; rfl
  | cons stage rest ih =>
      intro i h
      rw [wellFormed, List.all_cons, Bool.and_eq_true] at h
      obtain ⟨h1, h2⟩ := h
      have hs : validateStage i stage = Except.ok () := by
        unfold stageWellFormed at h1
        unfold validateStage
        cases hg : dictGet "$group" stage with
        | none => rfl
        | some gv =>
            rw [hg] at h1
            cases gv with
            | obj g => exact validateGroup_wf i g h1
            | null => simp at h1
            | bool b => simp at h1
            | int n => simp at h1
            | float lit => simp at h1
            | str s2 => simp at h1
            | arr a => simp at h1
      simp only [validateFrom, hs]
      exact ih (i + 1) h2

/-! ### Claim theorems -/

/-- C1 (counterexample): a stage whose `$group` value is not an object is NOT
passed through unchanged — `fix_pipeline` raises `AttributeError` when it
iterates `new_stage["$group"].items()` (modelled by `none`), so the claim
that repair never throws on JSON-compatible pipelines is false. -/
theorem C1_counterexample :
    fix_pipeline_unified [[("$group", JValue.int 5)]] = none := rfl

/-- C1 (amended): `fix_pipeline` (either copy) does not throw exactly on
pipelines in which every stage's `$group` value, when present, is a mapping;
on such pipelines it returns a result. -/
theorem C1_repair_total_on_object_groups (req : Bool) :
    (p : Pipeline) → groupsAreObjs p = true → (fixPipeline req p).isSome = true := by
  intro p
  induction p with
  | nil => intro _; rfl
  | cons stage rest ih =>
      intro h
      rw [groupsAreObjs, List.all_cons, Bool.and_eq_true] at h
      obtain ⟨h1, h2⟩ := h
      have hs : (fixStage req stage).isSome = true := by
        unfold stageGroupIsObj at h1
        unfold fixStage
        cases hg : dictGet "$group" stage with
        | none => rfl
        | some gv =>
            rw [hg] at h1
            cases gv with
            | obj g => rfl
            | null => simp at h1
            | bool b => simp at h1
            | int n => simp at h1
            | float lit => simp at h1
            | str s2 => simp at h1
            | arr a => simp at h1
      cases hs' : fixStage req stage with
      | none => rw [hs'] at hs; simp at hs
      | some s' =>
          cases hr : fixPipeline req rest with
          | none =>
              have hrest := ih h2
              rw [hr] at hrest
              simp at hrest
          | some rest' => simp [fixPipeline, hs', hr]

theorem C1_witness :
    groupsAreObjs [[("$match", JValue.obj JObject.nil)],
        [("$group", JValue.obj (JObject.cons "_id" JValue.null JObject.nil))]] = true ∧
      (fixPipeline false [[("$match", JValue.obj JObject.nil)],
        [("$group", JValue.obj (JObject.cons "_id" JValue.null JObject.nil))]]).isSome = true :=
  ⟨by decide, C1_repair_total_on_object_groups false _ (by decide)⟩

/-- C2: on a well-formed pipeline (every `$group` value a mapping whose
non-`_id` fields are accumulator objects) `fix_pipeline` is the identity —
it returns its input — and `validate_pipeline` succeeds. -/
theorem C2_wellformed_identity (req : Bool) (p : Pipeline) (h : wellFormed p = true) :
    fixPipeline req p = some p ∧ validate_pipeline p = Except.ok () :=
  ⟨fixPipeline_wf req p h, validateFrom_wf p 0 h⟩

theorem C2_witness :
    wellFormed [[("$match", JValue.obj JObject.nil)],
        [("$group", JValue.obj (JObject.cons "_id" (JValue.str "$cat")
          (JObject.cons "count" (JValue.obj (JObject.cons "$sum" (JValue.int 1) JObject.nil))
            JObject.nil)))]] = true ∧
      fixPipeline false [[("$match", JValue.obj JObject.nil)],
        [("$group", JValue.obj (JObject.cons "_id" (JValue.str "$cat")
          (JObject.cons "count" (JValue.obj (JObject.cons "$sum" (JValue.int 1) JObject.nil))
            JObject.nil)))]]
        = some [[("$match", JValue.obj JObject.nil)],
        [("$group", JValue.obj (JObject.cons "_id" (JValue.str "$cat")
          (JObject.cons "count" (JValue.obj (JObject.cons "$sum" (JValue.int 1) JObject.nil))
            JObject.nil)))]] ∧
      validate_pipeline [[("$match", JValue.obj JObject.nil)],
        [("$group", JValue.obj (JObject.cons "_id" (JValue.str "$cat")
          (JObject.cons "count" (JValue.obj (JObject.cons "$sum" (JValue.int 1) JObject.nil))
            JObject.nil)))]] = Except.ok () :=
  ⟨by decide, (C2_wellformed_identity false _ (by decide)).1,
    (C2_wellformed_identity false _ (by decide)).2⟩

/-- C3: repair is idempotent — running `fix_pipeline` (either copy) on its
own output returns that output unchanged; composition is expressed with
`Option.bind`, so a pipeline on which repair raises is propagated as the
same exception. -/
theorem C3_repair_idempotent (req : Bool) (p : Pipeline) :
    (fixPipeline req p).bind (fixPipeline req) = fixPipeline req p := by
  induction p with
  | nil => rfl
  | cons stage rest ih =>
      cases hs : fixStage req stage with
      | none => simp [fixPipeline, hs]
      | some s' =>
          cases hr : fixPipeline req rest with
          | none => simp [fixPipeline, hs, hr]
          | some rest' =>
              have h2 : fixPipeline req rest' = some rest' := by
                rw [hr] at ih
                simpa using ih
              simp [fixPipeline, hs, hr, fixStage_idem req stage s' hs, h2]

/-- C5: a bare accumulator-operator string gets the placeholder operand
`"$value"`: the `unified_agent.py` repairer rewrites
`{"$group": {"_id": "$u", "n": "$sum"}}` to
`{"$group": {"_id": "$u", "n": {"$sum": "$value"}}}`. -/
theorem C5_bare_operator_default_operand :
    fix_pipeline_unified [[("$group", JValue.obj (JObject.cons "_id" (JValue.str "$u")
        (JObject.cons "n" (JValue.str "$sum") JObject.nil)))]]
      = some [[("$group", JValue.obj (JObject.cons "_id" (JValue.str "$u")
        (JObject.cons "n" (JValue.obj (JObject.cons "$sum" (JValue.str "$value") JObject.nil))
          JObject.nil)))]] := by decide

/-- C6 (counterexample): `repair({"$group": {"_id": null, "x": "custom: 5"}})`
does NOT return `{"$group": {"_id": null, "x": {"custom": "5"}}}` — the
string `"custom: 5"` does not begin with `$` after trimming, so the repairer
passes it through unchanged and the fallback split is never reached. -/
theorem C6_counterexample :
    fix_pipeline_unified [[("$group", JValue.obj (JObject.cons "_id" JValue.null
        (JObject.cons "x" (JValue.str "custom: 5") JObject.nil)))]]
      = some [[("$group", JValue.obj (JObject.cons "_id" JValue.null
        (JObject.cons "x" (JValue.str "custom: 5") JObject.nil)))]] ∧
    fix_pipeline_unified [[("$group", JValue.obj (JObject.cons "_id" JValue.null
        (JObject.cons "x" (JValue.str "custom: 5") JObject.nil)))]]
      ≠ some [[("$group", JValue.obj (JObject.cons "_id" JValue.null
        (JObject.cons "x" (JValue.obj (JObject.cons "custom" (JValue.str "5") JObject.nil))
          JObject.nil)))]] := by decide

/-- C6 (amended): `"custom: 5"` is passed through unchanged because the
fallback split is only reached for strings beginning with `$` after
trimming; on the sigiled variant `"$custom: 5"` the fallback applies and the
operator key `"$custom"` is accepted verbatim without vocabulary
validation. -/
theorem C6_amended_passthrough :
    fix_pipeline_unified [[("$group", JValue.obj (JObject.cons "_id" JValue.null
        (JObject.cons "x" (JValue.str "custom: 5") JObject.nil)))]]
      = some [[("$group", JValue.obj (JObject.cons "_id" JValue.null
        (JObject.cons "x" (JValue.str "custom: 5") JObject.nil)))]] ∧
    fix_pipeline_unified [[("$group", JValue.obj (JObject.cons "_id" JValue.null
        (JObject.cons "x" (JValue.str "$custom: 5") JObject.nil)))]]
      = some [[("$group", JValue.obj (JObject.cons "_id" JValue.null
        (JObject.cons "x" (JValue.obj (JObject.cons "$custom" (JValue.str "5") JObject.nil))
          JObject.nil)))]] := by decide

/-! ### Frame lemmas for C8 -/

theorem fixPipeline_length (req : Bool) : (p q : Pipeline) →
    fixPipeline req p = some q → q.length = p.length
  | [], q, h => by cases h; rfl
  | stage :: rest, q, h => by
      unfold fixPipeline at h
      cases hs : fixStage req stage with
      | none => rw [hs] at h; cases h
      | some s' =>
          rw [hs] at h
          cases hr : fixPipeline req rest with
          | none => rw [hr] at h; cases h
          | some rest' =>
              rw [hr] at h
              cases h
              simp [fixPipeline_length req rest rest' hr]

theorem fixPipeline_get (req : Bool) : (p q : Pipeline) →
    fixPipeline req p = some q → ∀ i, q.get? i = (p.get? i).bind (fixStage req)
  | [], q, h => by cases h; intro i; simp
  | stage :: rest, q, h => by
      unfold fixPipeline at h
      cases hs : fixStage req stage with
      | none => rw [hs] at h; cases h
      | some s' =>
          rw [hs] at h
          cases hr : fixPipeline req rest with
          | none => rw [hr] at h; cases h
          | some rest' =>
              rw [hr] at h
              cases h
              intro i
              cases i with
              | zero => simp [hs]
              | succ j => simpa using fixPipeline_get req rest rest' hr j

theorem fixStage_group (req : Bool) (s : Stage) (g : JObject)
    (hg : dictGet "$group" s = some (JValue.obj g)) :
    fixStage req s = some (dictSet "$group" (JValue.obj (fixGroup req g)) s) := by
  simp [fixStage, hg]

theorem fixGroup_keys (req : Bool) : (g : JObject) →
    (fixGroup req g).keys = g.keys
  | JObject.nil => rfl
  | JObject.cons k v rest => by
      simp [fixGroup, JObject.keys, fixGroup_keys req rest]

theorem fixGroup_lookup_id (req : Bool) : (g : JObject) →
    (fixGroup req g).lookup "_id" = g.lookup "_id"
  | JObject.nil => rfl
  | JObject.cons k v rest => by
      by_cases h : k = "_id"
      · simp [fixGroup, JObject.lookup, h]
      · simp [fixGroup, JObject.lookup, h, fixGroup_lookup_id req rest]

/-- C8: when repair returns, the output pipeline has the same length with
stages corresponding index by index (order preserved); every stage without a
`$group` key is returned unchanged; a `$group` stage keeps every non-`$group`
entry, keeps the group's field names in order, and keeps the `_id` entry
unchanged. -/
theorem C8_frame (req : Bool) (p q : Pipeline) (h : fixPipeline req p = some q) :
    q.length = p.length ∧
    (∀ i s, p.get? i = some s → dictGet "$group" s = none → q.get? i = some s) ∧
    (∀ i s g, p.get? i = some s → dictGet "$group" s = some (JValue.obj g) →
      ∃ s' g', q.get? i = some s' ∧
        dictGet "$group" s' = some (JValue.obj g') ∧
        (∀ k, k ≠ "$group" → dictGet k s' = dictGet k s) ∧
        JObject.keys g' = JObject.keys g ∧
        JObject.lookup "_id" g' = JObject.lookup "_id" g) := by
  refine ⟨fixPipeline_length req p q h, ?_, ?_⟩
  · intro i s hp hg
    have hq := fixPipeline_get req p q h i
    rw [hp, Option.some_bind] at hq
    rw [hq]
    simp [fixStage, hg]
  · intro i s g hp hg
    have hq := fixPipeline_get req p q h i
    rw [hp, Option.some_bind] at hq
    rw [fixStage_group req s g hg] at hq
    refine ⟨_, fixGroup req g, hq, dictGet_dictSet_self _ _ _, ?_,
      fixGroup_keys req g, fixGroup_lookup_id req g⟩
    intro k hk
    exact dictGet_dictSet_ne _ _ _ _ hk

theorem C8_witness :
    fixPipeline false [[("$sort", JValue.obj JObject.nil)],
        [("$group", JValue.obj (JObject.cons "_id" JValue.null
          (JObject.cons "n" (JValue.str "$sum") JObject.nil)))]]
      = some [[("$sort", JValue.obj JObject.nil)],
        [("$group", JValue.obj (JObject.cons "_id" JValue.null
          (JObject.cons "n" (JValue.obj (JObject.cons "$sum" (JValue.str "$value") JObject.nil))
            JObject.nil)))]] ∧
    ([[("$sort", JValue.obj JObject.nil)],
        [("$group", JValue.obj (JObject.cons "_id" JValue.null
          (JObject.cons "n" (JValue.obj (JObject.cons "$sum" (JValue.str "$value") JObject.nil))
            JObject.nil)))]] : Pipeline).length
      = ([[("$sort", JValue.obj JObject.nil)],
        [("$group", JValue.obj (JObject.cons "_id" JValue.null
          (JObject.cons "n" (JValue.str "$sum") JObject.nil)))]] : Pipeline).length :=
  ⟨by decide, (C8_frame false _ _ (by decide)).1⟩

/-! ### The repaired key always carries the sigil (C10, C7) -/

theorem dropWhile_append_last (c : Char) (h : isPySpace c = false) : (m : List Char) →
    (m ++ [c]).dropWhile isPySpace = m.dropWhile isPySpace ++ [c]
  | [] => by simp [List.dropWhile, h]
  | d :: m' => by
      by_cases hd : isPySpace d = true
      · simp only [List.cons_append, List.dropWhile_cons, hd, if_true]
        exact dropWhile_append_last c h m'
      · have hd' : isPySpace d = false := by simpa using hd
        simp [List.dropWhile_cons, hd']

theorem rstripL_cons (c : Char) (t : List Char) (h : isPySpace c = false) :
    rstripL (c :: t) = c :: rstripL t := by
  unfold rstripL
  rw [List.reverse_cons, dropWhile_append_last c h t.reverse, List.reverse_append]
  simp

theorem pyStripL_ws_cons (c : Char) (t : List Char) (h : isPySpace c = true) :
    pyStripL (c :: t) = pyStripL t := by
  unfold pyStripL
  rw [List.dropWhile_cons, if_pos h]

theorem pyStripL_head (c : Char) (t : List Char) (h : isPySpace c = false) :
    pyStripL (c :: t) = c :: rstripL t := by
  unfold pyStripL
  rw [List.dropWhile_cons]
  simp only [h]
  simp only [Bool.false_eq_true, if_false]
  exact rstripL_cons c t h

theorem takeWhile_keeps_dollar : (l : List Char) →
    startsWithDollarL (pyStripL l) = true →
    startsWithDollarL (pyStripL (l.takeWhile (· ≠ ':'))) = true
  | [], h => h
  | c :: t, h => by
      by_cases hws : isPySpace c = true
      · have hc : (c ≠ ':') := by
          intro hcc
          rw [hcc] at hws
          exact absurd hws (by decide)
        rw [pyStripL_ws_cons c t hws] at h
        rw [List.takeWhile_cons, if_pos (by simpa using hc), pyStripL_ws_cons c _ hws]
        exact takeWhile_keeps_dollar t h
      · have hws' : isPySpace c = false := by simpa using hws
        rw [pyStripL_head c t hws'] at h
        have hc : c = '$' := of_decide_eq_true h
        subst hc
        rw [List.takeWhile_cons, if_pos (by decide),
          pyStripL_head _ _ (by decide)]
        rfl

theorem accMatch_op_dollar (req : Bool) (s : String) (op : String) (w : Option String)
    (h : accMatch req s = some (op, w)) : startsWithDollar op = true := by
  unfold accMatch at h
  cases hl : s.toList with
  | nil => rw [hl] at h; cases h
  | cons c rest =>
      rw [hl] at h
      change accMatchCore req c rest = some (op, w) at h
      unfold accMatchCore at h
      by_cases hc : c = '$'
      · rw [if_pos hc] at h
        cases hf : findOp accOperators rest with
        | none => rw [hf] at h; cases h
        | some pr =>
            obtain ⟨word, rest'⟩ := pr
            rw [hf] at h
            change accAssemble word (matchAfterSeps req (rest'.dropWhile isSepChar))
              = some (op, w) at h
            unfold accAssemble at h
            cases hm : matchAfterSeps req (rest'.dropWhile isSepChar) with
            | none => rw [hm] at h; cases h
            | some v? =>
                rw [hm] at h
                cases h
                rfl
      · rw [if_neg hc] at h
        cases h

/-- C10: whenever the repairer actually replaces a `$group` field value (the
output differs from the input), the replacement is a single-key mapping whose
sole key begins with `$`; consequently the rewritten value passes both of the
validator's checks (it is a mapping and has an accumulator-sigil key). -/
theorem C10_rewrite_invariant (req : Bool) (v : JValue)
    (h : fixGroupValue req v ≠ v) :
    isSingleDollarKeyObj (fixGroupValue req v) = true ∧
      badValueReason (fixGroupValue req v) = none := by
  cases v with
  | str s =>
      by_cases h1 : startsWithDollar (pyStrip s) = true
      · cases hm : accMatch req (pyStrip s) with
        | some pr =>
            obtain ⟨op, w⟩ := pr
            have hv : fixGroupValue req (JValue.str s)
                = JValue.obj (JObject.cons op (pyNumCoerce (w.getD "$value")) JObject.nil) := by
              simp [fixGroupValue, h1, hm]
            rw [hv]
            have hop : startsWithDollar op = true := accMatch_op_dollar req _ op w hm
            exact ⟨by simpa [isSingleDollarKeyObj] using hop,
              by simp [badValueReason, JObject.anyDollarKey, hop]⟩
        | none =>
            by_cases h2 : containsColon s = true
            · have hv : fixGroupValue req (JValue.str s)
                  = JValue.obj (JObject.cons (pyStrip (beforeColon s))
                      (JValue.str (stripQuotes (pyStrip (afterColon s)))) JObject.nil) := by
                simp [fixGroupValue, h1, hm, h2]
              rw [hv]
              have hop : startsWithDollar (pyStrip (beforeColon s)) = true :=
                takeWhile_keeps_dollar s.toList h1
              exact ⟨by simpa [isSingleDollarKeyObj] using hop,
                by simp [badValueReason, JObject.anyDollarKey, hop]⟩
            · exact absurd (by simp [fixGroupValue, h1, hm, h2]) h
      · exact absurd (by simp [fixGroupValue, h1]) h
  | null => exact absurd rfl h
  | bool b => exact absurd rfl h
  | int n => exact absurd rfl h
  | float lit => exact absurd rfl h
  | arr a => exact absurd rfl h
  | obj o => exact absurd rfl h

theorem C10_witness :
    fixGroupValue false (JValue.str "$sum: 1") ≠ JValue.str "$sum: 1" ∧
      isSingleDollarKeyObj (fixGroupValue false (JValue.str "$sum: 1")) = true ∧
      badValueReason (fixGroupValue false (JValue.str "$sum: 1")) = none :=
  ⟨by decide, (C10_rewrite_invariant false _ (by decide)).1,
    (C10_rewrite_invariant false _ (by decide)).2⟩

/-- C7: for every `$group` field whose string value begins with `$` after
trimming, fails the accumulator regex, and contains a colon, the repairer of
`unified_agent.py` replaces it by a single-key mapping: the key is the text
before the first colon, trimmed and taken verbatim (no vocabulary check);
the value is the text after the first colon, trimmed, stripped of
surrounding single/double quotes, and kept as a string with no numeric
coercion. -/
theorem C7_fallback_colon_split (k : String) (hk : k ≠ "_id") (idv : JValue) (s : String)
    (h1 : startsWithDollar (pyStrip s) = true)
    (h2 : accMatch false (pyStrip s) = none)
    (h3 : containsColon s = true) :
    fix_pipeline_unified [[("$group", JValue.obj (JObject.cons "_id" idv
        (JObject.cons k (JValue.str s) JObject.nil)))]]
      = some [[("$group", JValue.obj (JObject.cons "_id" idv
        (JObject.cons k (JValue.obj (JObject.cons (pyStrip (beforeColon s))
          (JValue.str (stripQuotes (pyStrip (afterColon s)))) JObject.nil))
          JObject.nil)))]] := by
  simp [fix_pipeline_unified, fixPipeline, fixStage, dictGet, dictSet, fixGroup,
    fixGroupValue, h1, h2, h3, hk]

theorem C7_witness :
    startsWithDollar (pyStrip "$share: '0.5'") = true ∧
      accMatch false (pyStrip "$share: '0.5'") = none ∧
      containsColon "$share: '0.5'" = true ∧
      fix_pipeline_unified [[("$group", JValue.obj (JObject.cons "_id" JValue.null
          (JObject.cons "x" (JValue.str "$share: '0.5'") JObject.nil)))]]
        = some [[("$group", JValue.obj (JObject.cons "_id" JValue.null
          (JObject.cons "x" (JValue.obj (JObject.cons "$share" (JValue.str "0.5") JObject.nil))
            JObject.nil)))]] :=
  ⟨by decide, by decide, by decide, by
    have h := C7_fallback_colon_split "x" (by decide) JValue.null "$share: '0.5'"
      (by decide) (by decide) (by decide)
    simpa using h⟩

/-! ### Characterisation of the validator (C4) -/

theorem validateGroup_ok_iff (i : Nat) : (g : JObject) →
    (validateGroup i g = Except.ok () ↔ hasBadFieldGroup g = false)
  | JObject.nil => by simp [validateGroup, hasBadFieldGroup]
  | JObject.cons k v rest => by
      by_cases hk : k = "_id"
      · simp [validateGroup, hasBadFieldGroup, hk, validateGroup_ok_iff i rest]
      · cases v with
        | obj fields =>
            by_cases ha : fields.anyDollarKey = true
            · simp [validateGroup, hasBadFieldGroup, hk, ha, badValueReason,
                validateGroup_ok_iff i rest]
            · have ha' : fields.anyDollarKey = false := by simpa using ha
              simp [validateGroup, hasBadFieldGroup, hk, ha', badValueReason]
        | null => simp [validateGroup, hasBadFieldGroup, hk, badValueReason]
        | bool b => simp [validateGroup, hasBadFieldGroup, hk, badValueReason]
        | int n => simp [validateGroup, hasBadFieldGroup, hk, badValueReason]
        | float lit => simp [validateGroup, hasBadFieldGroup, hk, badValueReason]
        | str s2 => simp [validateGroup, hasBadFieldGroup, hk, badValueReason]
        | arr a => simp [validateGroup, hasBadFieldGroup, hk, badValueReason]

theorem validateGroup_error (i : Nat) : (g : JObject) → (e : VError) →
    validateGroup i g = Except.error e →
    ∃ f r, e = VError.validationError i f r ∧ groupBadAt g f r = true
  | JObject.nil, e, h => by cases h
  | JObject.cons k v rest, e, h => by
      unfold validateGroup at h
      by_cases hk : k = "_id"
      · rw [if_pos hk] at h
        obtain ⟨f, r, he, hb⟩ := validateGroup_error i rest e h
        exact ⟨f, r, he, by simp [groupBadAt, hk, hb]⟩
      · rw [if_neg hk] at h
        cases v with
        | obj fields =>
            change (if fields.anyDollarKey = true then validateGroup i rest
              else Except.error
                (VError.validationError i k VReason.missingAccumulatorOperator))
              = Except.error e at h
            by_cases ha : fields.anyDollarKey = true
            · rw [if_pos ha] at h
              obtain ⟨f, r, he, hb⟩ := validateGroup_error i rest e h
              exact ⟨f, r, he, by simp [groupBadAt, hk, hb]⟩
            · have ha' : fields.anyDollarKey = false := by simpa using ha
              rw [if_neg ha] at h
              cases h
              exact ⟨k, VReason.missingAccumulatorOperator, rfl,
                by simp [groupBadAt, hk, badValueReason, ha']⟩
        | null =>
            cases h
            exact ⟨k, VReason.notAccumulatorObject, rfl,
              by simp [groupBadAt, hk, badValueReason]⟩
        | bool b =>
            cases h
            exact ⟨k, VReason.notAccumulatorObject, rfl,
              by simp [groupBadAt, hk, badValueReason]⟩
        | int n =>
            cases h
            exact ⟨k, VReason.notAccumulatorObject, rfl,
              by simp [groupBadAt, hk, badValueReason]⟩
        | float lit =>
            cases h
            exact ⟨k, VReason.notAccumulatorObject, rfl,
              by simp [groupBadAt, hk, badValueReason]⟩
        | str s2 =>
            cases h
            exact ⟨k, VReason.notAccumulatorObject, rfl,
              by simp [groupBadAt, hk, badValueReason]⟩
        | arr a =>
            cases h
            exact ⟨k, VReason.notAccumulatorObject, rfl,
              by simp [groupBadAt, hk, badValueReason]⟩

theorem validateStage_ok_iff (i : Nat) (stage : Stage)
    (h : stageGroupIsObj stage = true) :
    (validateStage i stage = Except.ok () ↔ stageHasBadField stage = false) := by
  unfold stageGroupIsObj at h
  unfold validateStage stageHasBadField
  cases hg : dictGet "$group" stage with
  | none => simp
  | some gv =>
      rw [hg] at h
      cases gv with
      | obj g => exact validateGroup_ok_iff i g
      | null => simp at h
      | bool b => simp at h
      | int n => simp at h
      | float lit => simp at h
      | str s2 => simp at h
      | arr a => simp at h

theorem validateFrom_ok_iff : (p : Pipeline) → ∀ i, groupsAreObjs p = true →
    (validateFrom i p = Except.ok () ↔ hasBadField p = false)
  | [], i, _ => by simp [validateFrom, hasBadField]
  | stage :: rest, i, h => by
      rw [groupsAreObjs, List.all_cons, Bool.and_eq_true] at h
      obtain ⟨h1, h2⟩ := h
      unfold validateFrom
      have hrec := validateFrom_ok_iff rest (i + 1) h2
      cases hv : validateStage i stage with
      | ok u =>
          cases u
          have hsb : stageHasBadField stage = false :=
            (validateStage_ok_iff i stage h1).mp hv
          have hbf : hasBadField (stage :: rest) = hasBadField rest := by
            simp only [hasBadField, List.any_cons, hsb, Bool.false_or]
          rw [hbf]
          exact hrec
      | error e =>
          have hsb : stageHasBadField stage = true := by
            by_cases hb : stageHasBadField stage = true
            · exact hb
            · have hok : validateStage i stage = Except.ok () :=
                (validateStage_ok_iff i stage h1).mpr (by simpa using hb)
              rw [hv] at hok
              cases hok
          have hbf : hasBadField (stage :: rest) = true := by
            simp only [hasBadField, List.any_cons, hsb, Bool.true_or]
          rw [hbf]
          simp

theorem validateFrom_error : (p : Pipeline) → ∀ i e, groupsAreObjs p = true →
    validateFrom i p = Except.error e →
    ∃ j f r, e = VError.validationError (i + j) f r ∧ badAt p j f r = true
  | [], i, e, _, he => by cases he
  | stage :: rest, i, e, h, he => by
      rw [groupsAreObjs, List.all_cons, Bool.and_eq_true] at h
      obtain ⟨h1, h2⟩ := h
      unfold validateFrom at he
      cases hv : validateStage i stage with
      | ok u =>
          rw [hv] at he
          obtain ⟨j, f, r, hrfl, hb⟩ := validateFrom_error rest (i + 1) e h2 he
          refine ⟨j + 1, f, r, ?_, hb⟩
          rw [hrfl]
          have harith : i + 1 + j = i + (j + 1) := by omega
          rw [harith]
      | error e' =>
          rw [hv] at he
          cases he
          unfold validateStage at hv
          unfold stageGroupIsObj at h1
          cases hg : dictGet "$group" stage with
          | none => rw [hg] at hv; cases hv
          | some gv =>
              rw [hg] at hv
              rw [hg] at h1
              cases gv with
              | obj g =>
                  obtain ⟨f, r, hrfl, hb⟩ := validateGroup_error i g e hv
                  refine ⟨0, f, r, by simpa using hrfl, ?_⟩
                  simp [badAt, hg, hb]
              | null => simp at h1
              | bool b => simp at h1
              | int n => simp at h1
              | float lit => simp at h1
              | str s2 => simp at h1
              | arr a => simp at h1

/-- C4 (counterexample): the stated iff fails on a pipeline whose `$group`
value is not a mapping — there validate raises `AttributeError` (from
iterating `stage["$group"].items()`), which is neither a success nor a
validation error carrying a stage index and field name, although no `$group`
stage has any offending field. -/
theorem C4_counterexample :
    validate_pipeline [[("$group", JValue.str "oops")]] = Except.error VError.attributeError ∧
      hasBadField [[("$group", JValue.str "oops")]] = false :=
  ⟨rfl, rfl⟩

/-- C4 (amended): provided every `$group` value of the pipeline is a mapping,
`validate_pipeline` succeeds exactly when no `$group` stage has a non-`_id`
field that is either not a mapping (reason `notAccumulatorObject`) or a
mapping without a `$`-prefixed key (reason `missingAccumulatorOperator`);
and every error it raises is a validation error carrying the index of an
actual offending stage, the name of an offending field, and the matching
reason. -/
theorem C4_validate_characterization (p : Pipeline) (h : groupsAreObjs p = true) :
    (validate_pipeline p = Except.ok () ↔ hasBadField p = false) ∧
    (∀ e, validate_pipeline p = Except.error e →
      ∃ i f r, e = VError.validationError i f r ∧ badAt p i f r = true) := by
  constructor
  · exact validateFrom_ok_iff p 0 h
  · intro e he
    obtain ⟨j, f, r, hrfl, hb⟩ := validateFrom_error p 0 e h he
    exact ⟨j, f, r, by simpa using hrfl, hb⟩

theorem C4_witness :
    groupsAreObjs [[("$group", JValue.obj (JObject.cons "_id" JValue.null
        (JObject.cons "t" (JValue.str "$price") JObject.nil)))]] = true ∧
      (validate_pipeline [[("$group", JValue.obj (JObject.cons "_id" JValue.null
        (JObject.cons "t" (JValue.str "$price") JObject.nil)))]] = Except.ok ()
        ↔ hasBadField [[("$group", JValue.obj (JObject.cons "_id" JValue.null
        (JObject.cons "t" (JValue.str "$price") JObject.nil)))]] = false) :=
  ⟨by decide, (C4_validate_characterization _ (by decide)).1⟩

/-! ### Relating the two regex variants (C9) -/

theorem takeOperand_quote (c : Char) (t : List Char) (h : isQuoteChar c = true) :
    takeOperand (c :: t) = none := by
  have hne : ¬ (c = '$') := by
    intro hc
    subst hc
    exact absurd h (by decide)
  have hop : isOperandChar c = false := by
    simp [isQuoteChar] at h
    rcases h with h | h <;> subst h <;> decide
  simp [takeOperand, hne, List.takeWhile_cons, hop]

theorem matchOperandTail_req (u : List Char) :
    matchOperandTail true u = (match matchOperandTail false u with
      | some (some x) => some (some x)
      | _ => none) := by
  unfold matchOperandTail
  cases ht : takeOperand u with
  | some pr =>
      obtain ⟨o, rest⟩ := pr
      by_cases hq : matchQuoteEnd rest = true
      · simp [hq]
      · have hq' : matchQuoteEnd rest = false := by simpa using hq
        simp [hq']
  | none =>
      by_cases hq : matchQuoteEnd u = true
      · simp [hq]
      · have hq' : matchQuoteEnd u = false := by simpa using hq
        simp [hq']

theorem matchAfterSeps_req : (t : List Char) →
    matchAfterSeps true t = (match matchAfterSeps false t with
      | some (some x) => some (some x)
      | _ => none)
  | [] => by
      unfold matchAfterSeps
      exact matchOperandTail_req []
  | c :: t' => by
      simp only [matchAfterSeps]
      by_cases hq : isQuoteChar c = true
      · rw [if_pos hq, if_pos hq]
        cases h' : matchOperandTail false t' with
        | some r =>
            cases r with
            | some x =>
                have h'' : matchOperandTail true t' = some (some x) := by
                  rw [matchOperandTail_req, h']
                simp only [h'', h']
            | none =>
                have h'' : matchOperandTail true t' = none := by
                  rw [matchOperandTail_req, h']
                simp only [h'', h']
                have hto : takeOperand (c :: t') = none := takeOperand_quote c t' hq
                simp [matchOperandTail, hto]
        | none =>
            have h'' : matchOperandTail true t' = none := by
              rw [matchOperandTail_req, h']
            simp only [h'', h']
            exact matchOperandTail_req (c :: t')
      · rw [if_neg hq, if_neg hq]
        exact matchOperandTail_req (c :: t')

theorem accAssemble_req (w : String) (m : Option (Option (List Char))) :
    accAssemble w (match m with | some (some x) => some (some x) | _ => none)
      = (match accAssemble w m with
        | some (op, some x) => some (op, some x)
        | _ => none) := by
  cases m with
  | none => rfl
  | some v? =>
      cases v? with
      | none => rfl
      | some x => rfl

theorem accMatch_req (s : String) :
    accMatch true s = (match accMatch false s with
      | some (op, some x) => some (op, some x)
      | _ => none) := by
  unfold accMatch
  cases hl : s.toList with
  | nil => rfl
  | cons c rest =>
      show accMatchCore true c rest = (match accMatchCore false c rest with
        | some (op, some x) => some (op, some x)
        | _ => none)
      unfold accMatchCore
      by_cases hc : c = '$'
      · rw [if_pos hc, if_pos hc]
        cases hf : findOp accOperators rest with
        | none => rfl
        | some pr =>
            obtain ⟨w, rest'⟩ := pr
            show accAssemble w (matchAfterSeps true (rest'.dropWhile isSepChar))
              = (match accAssemble w (matchAfterSeps false (rest'.dropWhile isSepChar)) with
                | some (op, some x) => some (op, some x)
                | _ => none)
            rw [matchAfterSeps_req (rest'.dropWhile isSepChar)]
            exact accAssemble_req w _
      · rw [if_neg hc, if_neg hc]

theorem fixGroupValue_req (v : JValue) (h : valueBareOperand v = false) :
    fixGroupValue true v = fixGroupValue false v := by
  cases v with
  | str s =>
      by_cases h1 : startsWithDollar (pyStrip s) = true
      · cases hm : accMatch false (pyStrip s) with
        | some pr =>
            obtain ⟨op, w⟩ := pr
            cases w with
            | some x =>
                have hm' : accMatch true (pyStrip s) = some (op, some x) := by
                  rw [accMatch_req, hm]
                simp [fixGroupValue, h1, hm, hm']
            | none =>
                exfalso
                have hv : valueBareOperand (JValue.str s) = true := by
                  simp [valueBareOperand, h1, hm]
                rw [hv] at h
                exact absurd h (by decide)
        | none =>
            have hm' : accMatch true (pyStrip s) = none := by
              rw [accMatch_req, hm]
            simp [fixGroupValue, h1, hm, hm']
      · simp [fixGroupValue, h1]
  | null => rfl
  | bool b => rfl
  | int n => rfl
  | float lit => rfl
  | arr a => rfl
  | obj o => rfl

theorem fixGroup_req : (g : JObject) → groupHasBareOperand g = false →
    fixGroup true g = fixGroup false g
  | JObject.nil, _ => rfl
  | JObject.cons k v rest, h => by
      unfold groupHasBareOperand at h
      rw [Bool.or_eq_false_iff] at h
      obtain ⟨ha, hb⟩ := h
      by_cases hk : k = "_id"
      · simp [fixGroup, hk, fixGroup_req rest hb]
      · rw [if_neg hk] at ha
        simp [fixGroup, hk, fixGroupValue_req v ha, fixGroup_req rest hb]

theorem fixStage_req (stage : Stage) (h : stageHasBareOperand stage = false) :
    fixStage true stage = fixStage false stage := by
  unfold stageHasBareOperand at h
  unfold fixStage
  cases hg : dictGet "$group" stage with
  | none => rfl
  | some gv =>
      rw [hg] at h
      cases gv with
      | obj g =>
          show some (dictSet "$group" (JValue.obj (fixGroup true g)) stage)
            = some (dictSet "$group" (JValue.obj (fixGroup false g)) stage)
          rw [fixGroup_req g h]
      | null => rfl
      | bool b => rfl
      | int n => rfl
      | float lit => rfl
      | str s2 => rfl
      | arr a => rfl

theorem fixPipeline_req : (p : Pipeline) → hasBareOperand p = false →
    fixPipeline true p = fixPipeline false p
  | [], _ => rfl
  | stage :: rest, h => by
      rw [hasBareOperand, List.any_cons, Bool.or_eq_false_iff] at h
      obtain ⟨h1, h2⟩ := h
      unfold fixPipeline
      rw [fixStage_req stage h1, fixPipeline_req rest h2]

/-- C9 (counterexample): the two near-duplicate repairers are NOT the same
function — on a bare operator string `"$sum"` the `unified_agent.py` copy
(optional-operand regex) substitutes the `"$value"` placeholder while the
`mongo_agent.py` copy (mandatory-operand regex) leaves the string
unchanged. -/
theorem C9_counterexample :
    fix_pipeline_unified [[("$group", JValue.obj (JObject.cons "_id" JValue.null
        (JObject.cons "n" (JValue.str "$sum") JObject.nil)))]]
      ≠ fix_pipeline_archived [[("$group", JValue.obj (JObject.cons "_id" JValue.null
        (JObject.cons "n" (JValue.str "$sum") JObject.nil)))]] := by decide

/-- C9 (amended): the two copies agree on every pipeline with no `$group`
field whose string value, after trimming, matches the optional-operand regex
with group 2 absent (a bare operator such as `"$sum"`, `"$sum:"`, or
`"$sum''"`); on such values the copies differ. -/
theorem C9_agree_without_bare_operator (p : Pipeline) (h : hasBareOperand p = false) :
    fix_pipeline_unified p = fix_pipeline_archived p :=
  (fixPipeline_req p h).symm

theorem C9_witness :
    hasBareOperand [[("$group", JValue.obj (JObject.cons "_id" (JValue.str "$cat")
        (JObject.cons "count" (JValue.str "$sum: 1") JObject.nil)))]] = false ∧
      fix_pipeline_unified [[("$group", JValue.obj (JObject.cons "_id" (JValue.str "$cat")
        (JObject.cons "count" (JValue.str "$sum: 1") JObject.nil)))]]
        = fix_pipeline_archived [[("$group", JValue.obj (JObject.cons "_id" (JValue.str "$cat")
        (JObject.cons "count" (JValue.str "$sum: 1") JObject.nil)))]] :=
  ⟨by decide, C9_agree_without_bare_operator _ (by decide)⟩

end DbMcp
